import Mathlib

/-!
Shallow embedding of the translate-machine job manager
(`src/extensions/translate-machine/src/job-manager.ts`).

The job manager supervises external worker processes: it admits jobs under a
concurrency cap and a per-target mutual-exclusion rule, consumes the worker's
output streams line by line into a bounded buffer, folds parsed events into
progress counters, and reconciles process exit / error / cancellation into a
final job status.

Modelling conventions:
* Timestamps (`Date.now()`) are explicit `Int` parameters to the operations.
* `JSON.parse` is an external library routine; a stdout line is therefore
  modelled as the raw string together with its parse outcome
  (`Option ParsedEvent`), where `ParsedEvent` records the fields the code
  reads (`event`, `pending`, `file`), each `none` when absent or not of the
  type the code casts to.
* The `Map` of jobs is modelled as a list in insertion order with
  JS-`Map.set` semantics (replace the entry with the same key, else append).
* Asynchronous callbacks (stdout line, stderr line, process close, process
  error) are modelled as explicit state-transition functions, and a trace of
  interleaved API calls and callbacks drives a `step` function.
-/

/-- Job status, `TranslationJob.status` in the source. -/
inductive JobStatus
  | running
  | completed
  | failed
  | cancelled
  deriving DecidableEq, Repr

/-- `TranslationJob.progress` in the source. -/
structure Progress where
  total : Int
  completed : Nat
  failed : Nat
  currentFile : Option String
  deriving DecidableEq, Repr

/-- The `TranslationJob` record of the source. -/
structure TranslationJob where
  id : String
  status : JobStatus
  source : String
  target : String
  startedAt : Int
  completedAt : Option Int
  progress : Progress
  outputLines : List String
  pid : Option Int
  deriving DecidableEq, Repr

/-- The `StartJobOptions` record of the source; optional fields are `Option`. -/
structure StartJobOptions where
  source : String
  target : String
  model : Option String := none
  targetLang : Option String := none
  sourceLang : Option String := none
  parallel : Option Int := none
  retries : Option Int := none
  delay : Option Int := none
  maxFiles : Option Int := none
  filePattern : Option String := none
  glossary : Option String := none
  trimSuffix : Option String := none
  addSuffix : Option String := none
  preserveCode : Option Bool := none
  retryFailed : Option Bool := none
  dryRun : Option Bool := none
  deriving DecidableEq, Repr

/-- The `JobManagerConfig` record of the source. -/
structure JobManagerConfig where
  scriptPath : String
  maxConcurrent : Nat
  defaultModel : Option String := none
  defaultTargetLang : Option String := none
  defaultParallel : Option Int := none
  defaultRetries : Option Int := none
  defaultDelay : Option Int := none
  preserveCode : Option Bool := none
  deriving DecidableEq, Repr

/-- The two admission errors `startJob` can throw. -/
inductive StartError
  | capacityExceeded (max : Nat)
  | targetBusy (target : String) (conflictId : String)
  deriving DecidableEq, Repr

/-- The message text of each thrown `Error` in the source. -/
def renderStartError : StartError → String
  | .capacityExceeded max => "已達最大同時執行任務數 (" ++ toString max ++ ")"
  | .targetBusy target id => "目標目錄 " ++ target ++ " 已有執行中的任務 (" ++ id ++ ")"

/-- Result of `JSON.parse` on a stdout line, restricted to the fields the
    handler reads: `event.event`, `event.pending`, `event.file`. A field is
    `none` when absent from the parsed object (or not of the cast type). -/
structure ParsedEvent where
  event : Option String := none
  pending : Option Int := none
  file : Option String := none
  deriving DecidableEq, Repr

/-- JS `a || b` for an optional string `a`: an absent or empty string is
    falsy, anything else wins. -/
def jsOr (a : Option String) (b : String) : String :=
  match a with
  | some s => if s = "" then b else s
  | none => b

/-- `opts.model || config.defaultModel || "haiku"`. -/
def modelArg (cfg : JobManagerConfig) (opts : StartJobOptions) : String :=
  jsOr opts.model (jsOr cfg.defaultModel "haiku")

/-- `opts.targetLang || config.defaultTargetLang || "繁體中文，台灣用語習慣"`. -/
def targetLangArg (cfg : JobManagerConfig) (opts : StartJobOptions) : String :=
  jsOr opts.targetLang (jsOr cfg.defaultTargetLang "繁體中文，台灣用語習慣")

/-- `opts.parallel ?? config.defaultParallel ?? 1`. -/
def parallelArg (cfg : JobManagerConfig) (opts : StartJobOptions) : Int :=
  opts.parallel.getD (cfg.defaultParallel.getD 1)

/-- `opts.retries ?? config.defaultRetries ?? 2`. -/
def retriesArg (cfg : JobManagerConfig) (opts : StartJobOptions) : Int :=
  opts.retries.getD (cfg.defaultRetries.getD 2)

/-- `opts.delay ?? config.defaultDelay ?? 3`. -/
def delayArg (cfg : JobManagerConfig) (opts : StartJobOptions) : Int :=
  opts.delay.getD (cfg.defaultDelay.getD 3)

/-- The unconditional head of the argument list built by `startJob`. -/
def baseArgs (cfg : JobManagerConfig) (opts : StartJobOptions) : List String :=
  [cfg.scriptPath,
   "--source", opts.source,
   "--target", opts.target,
   "--model", modelArg cfg opts,
   "--target-lang", targetLangArg cfg opts,
   "--parallel", toString (parallelArg cfg opts),
   "--retries", toString (retriesArg cfg opts),
   "--delay", toString (delayArg cfg opts),
   "--output-format", "json",
   "--no-interactive",
   "--pause-every", "0"]

/-- `if (opts.sourceLang) args.push("--source-lang", opts.sourceLang)`. -/
def sourceLangArgs (opts : StartJobOptions) : List String :=
  match opts.sourceLang with
  | some s => if s = "" then [] else ["--source-lang", s]
  | none => []

/-- `if (opts.maxFiles && opts.maxFiles > 0) args.push("--max-files", ...)`. -/
def maxFilesArgs (opts : StartJobOptions) : List String :=
  match opts.maxFiles with
  | some n => if n ≠ 0 ∧ 0 < n then ["--max-files", toString n] else []
  | none => []

/-- `if (opts.filePattern) args.push("--file-pattern", opts.filePattern)`. -/
def filePatternArgs (opts : StartJobOptions) : List String :=
  match opts.filePattern with
  | some s => if s = "" then [] else ["--file-pattern", s]
  | none => []

/-- `if (opts.glossary) args.push("--glossary", opts.glossary)`. -/
def glossaryArgs (opts : StartJobOptions) : List String :=
  match opts.glossary with
  | some s => if s = "" then [] else ["--glossary", s]
  | none => []

/-- `if (opts.trimSuffix) args.push("--trim-suffix", opts.trimSuffix)`. -/
def trimSuffixArgs (opts : StartJobOptions) : List String :=
  match opts.trimSuffix with
  | some s => if s = "" then [] else ["--trim-suffix", s]
  | none => []

/-- `if (opts.addSuffix) args.push("--add-suffix", opts.addSuffix)`. -/
def addSuffixArgs (opts : StartJobOptions) : List String :=
  match opts.addSuffix with
  | some s => if s = "" then [] else ["--add-suffix", s]
  | none => []

/-- `if (opts.preserveCode === false || config.preserveCode === false)
    args.push("--no-preserve-code")`. -/
def preserveCodeArgs (cfg : JobManagerConfig) (opts : StartJobOptions) : List String :=
  if opts.preserveCode = some false ∨ cfg.preserveCode = some false then
    ["--no-preserve-code"]
  else []

/-- `if (opts.retryFailed) args.push("--retry-failed")`. -/
def retryFailedArgs (opts : StartJobOptions) : List String :=
  if opts.retryFailed = some true then ["--retry-failed"] else []

/-- `if (opts.dryRun) args.push("--dry-run")`. -/
def dryRunArgs (opts : StartJobOptions) : List String :=
  if opts.dryRun = some true then ["--dry-run"] else []

/-- The full worker command line assembled by `startJob` (lines 86–126). -/
def buildArgs (cfg : JobManagerConfig) (opts : StartJobOptions) : List String :=
  baseArgs cfg opts ++ sourceLangArgs opts ++ maxFilesArgs opts ++
    filePatternArgs opts ++ glossaryArgs opts ++ trimSuffixArgs opts ++
    addSuffixArgs opts ++ preserveCodeArgs cfg opts ++ retryFailedArgs opts ++
    dryRunArgs opts

/-- `job.outputLines.push(line); if (job.outputLines.length > 200)
    job.outputLines.shift();` -/
def pushCapped (lines : List String) (line : String) : List String :=
  let pushed := lines ++ [line]
  if pushed.length > 200 then pushed.drop 1 else pushed

/-- The `switch (event.event)` dispatch of the stdout line handler
    (lines 148–167): effect of one parsed event on the progress record. -/
def applyEvent (p : Progress) (e : ParsedEvent) : Progress :=
  if e.event = some "init" then
    { p with total := e.pending.getD 0 }
  else if e.event = some "file_start" then
    { p with currentFile := e.file }
  else if e.event = some "file_ok" then
    { p with completed := p.completed + 1, currentFile := e.file }
  else if e.event = some "file_fail" then
    { p with completed := p.completed + 1, failed := p.failed + 1,
             currentFile := e.file }
  else if e.event = some "done" then
    p
  else
    p

/-- The stdout `line` handler (lines 140–171): append the raw line to the
    capped buffer, then, if `JSON.parse` succeeds, fold the event into the
    progress; a parse failure (`catch`) leaves the progress untouched. -/
def stdoutUpdate (j : TranslationJob) (raw : String)
    (parsed : Option ParsedEvent) : TranslationJob :=
  { j with outputLines := pushCapped j.outputLines raw
           progress := match parsed with
                       | some e => applyEvent j.progress e
                       | none => j.progress }

/-- The stderr `line` handler (lines 177–182): the line enters the same
    capped buffer tagged with a `[stderr] ` prefix. -/
def stderrUpdate (j : TranslationJob) (raw : String) : TranslationJob :=
  { j with outputLines := pushCapped j.outputLines ("[stderr] " ++ raw) }

/-- Status after the `close` handler: only a still-`running` job takes its
    status from the exit code (`code === 0 ? "completed" : "failed"`). -/
def closeStatus (j : TranslationJob) (code : Option Int) : JobStatus :=
  if j.status = JobStatus.running then
    (if code = some 0 then JobStatus.completed else JobStatus.failed)
  else j.status

/-- The `close` handler body (lines 185–192) applied to the captured job:
    only a still-`running` job takes its status from the exit code, but
    `completedAt` is assigned unconditionally. -/
def closeUpdate (j : TranslationJob) (code : Option Int) (now : Int) :
    TranslationJob :=
  { j with status := closeStatus j code, completedAt := some now }

/-- Status after the `error` handler: a still-`running` job becomes
    `failed`. -/
def errorStatus (j : TranslationJob) : JobStatus :=
  if j.status = JobStatus.running then JobStatus.failed else j.status

/-- The `error` handler body (lines 194–202): a still-`running` job becomes
    `failed`; `completedAt` is assigned unconditionally and the error message
    is pushed onto the buffer tagged `[error] ` (note: without the cap check
    the stream handlers perform). -/
def errorUpdate (j : TranslationJob) (msg : String) (now : Int) :
    TranslationJob :=
  { j with status := errorStatus j, completedAt := some now,
           outputLines := j.outputLines ++ ["[error] " ++ msg] }

/-- The in-memory state of one job manager: the `jobs` map (insertion order)
    and the set of ids with a live entry in the `processes` map. -/
structure ManagerState where
  jobs : List TranslationJob
  procs : List String
  deriving DecidableEq, Repr

/-- `new Map()` twice. -/
def initState : ManagerState := { jobs := [], procs := [] }

/-- JS `Map.set` on the jobs list: replace the entry with the same key if
    present, else append. -/
def setJob (jobs : List TranslationJob) (job : TranslationJob) :
    List TranslationJob :=
  if jobs.any (fun j => j.id = job.id) then
    jobs.map (fun j => if j.id = job.id then job else j)
  else jobs ++ [job]

/-- Apply an update to the job with the given id (the JS callbacks mutate the
    captured job object, which is the map's entry for that id). -/
def mapJob (jobs : List TranslationJob) (id : String)
    (f : TranslationJob → TranslationJob) : List TranslationJob :=
  jobs.map (fun j => if j.id = id then f j else j)

/-- `[...jobs.values()].filter((j) => j.status === "running").length`. -/
def runningCount (s : ManagerState) : Nat :=
  (s.jobs.filter (fun j => decide (j.status = JobStatus.running))).length

/-- Body of the target-contention loop: the first `running` job holding the
    requested target, in map insertion order. -/
def findRunningTarget (jobs : List TranslationJob) (target : String) :
    Option TranslationJob :=
  jobs.find? (fun j => decide (j.status = JobStatus.running ∧ j.target = target))

/-- The job record created by `startJob` (lines 75–83), with the spawned
    pid (line 134) filled in. -/
def startedJob (opts : StartJobOptions) (now : Int) (pid : Option Int) :
    TranslationJob :=
  { id := "translate-" ++ toString now
    status := JobStatus.running
    source := opts.source
    target := opts.target
    startedAt := now
    completedAt := none
    progress := { total := 0, completed := 0, failed := 0, currentFile := none }
    outputLines := []
    pid := pid }

/-- `startJob` (lines 61–206). `now` stands for `Date.now()` and `pid` for
    the spawned process's pid; the spawn itself is external. On success the
    new job record and the updated state are returned; a thrown admission
    error is the `Except.error` case. -/
def startJob (cfg : JobManagerConfig) (s : ManagerState)
    (opts : StartJobOptions) (now : Int) (pid : Option Int) :
    Except StartError (TranslationJob × ManagerState) :=
  if runningCount s ≥ cfg.maxConcurrent then
    .error (.capacityExceeded cfg.maxConcurrent)
  else
    match findRunningTarget s.jobs opts.target with
    | some j => .error (.targetBusy opts.target j.id)
    | none =>
      let job := startedJob opts now pid
      .ok (job, { jobs := setJob s.jobs job, procs := s.procs ++ [job.id] })

/-- `cancelJob` (lines 208–228). -/
def cancelJob (s : ManagerState) (jobId : String) (now : Int) :
    Bool × ManagerState :=
  match s.jobs.find? (fun j => decide (j.id = jobId)) with
  | none => (false, s)
  | some job =>
    if job.status ≠ JobStatus.running then (false, s)
    else
      (true,
        { jobs := mapJob s.jobs jobId
            (fun j => { j with status := JobStatus.cancelled,
                               completedAt := some now })
          procs := s.procs.erase jobId })

/-- `getJob` (lines 230–232). -/
def getJob (s : ManagerState) (jobId : String) : Option TranslationJob :=
  s.jobs.find? (fun j => decide (j.id = jobId))

/-- `getJobOutput` (lines 243–249): `slice(offset)` on the buffer, `[]` for
    an unknown id. -/
def getJobOutput (s : ManagerState) (jobId : String) (offset : Nat) :
    List String :=
  match getJob s jobId with
  | none => []
  | some job => job.outputLines.drop offset

/-- Delivery of a stdout line for the job with the given id. -/
def onStdoutLine (s : ManagerState) (id : String) (raw : String)
    (parsed : Option ParsedEvent) : ManagerState :=
  { s with jobs := mapJob s.jobs id (fun j => stdoutUpdate j raw parsed) }

/-- Delivery of a stderr line for the job with the given id. -/
def onStderrLine (s : ManagerState) (id : String) (raw : String) :
    ManagerState :=
  { s with jobs := mapJob s.jobs id (fun j => stderrUpdate j raw) }

/-- Delivery of the process `close` event (also deletes the process entry). -/
def onClose (s : ManagerState) (id : String) (code : Option Int) (now : Int) :
    ManagerState :=
  { jobs := mapJob s.jobs id (fun j => closeUpdate j code now)
    procs := s.procs.erase id }

/-- Delivery of the process `error` event (also deletes the process entry). -/
def onError (s : ManagerState) (id : String) (msg : String) (now : Int) :
    ManagerState :=
  { jobs := mapJob s.jobs id (fun j => errorUpdate j msg now)
    procs := s.procs.erase id }

/-- One observable interaction with the manager: an API call or the delivery
    of one asynchronous process callback. -/
inductive MgrAction
  | start (opts : StartJobOptions) (now : Int) (pid : Option Int)
  | cancel (id : String) (now : Int)
  | close (id : String) (code : Option Int) (now : Int)
  | procError (id : String) (msg : String) (now : Int)
  | stdoutLine (id : String) (raw : String) (parsed : Option ParsedEvent)
  | stderrLine (id : String) (raw : String)

/-- State transition for one action; a rejected `startJob` leaves the state
    unchanged (the thrown error creates no job record). -/
def step (cfg : JobManagerConfig) (s : ManagerState) : MgrAction → ManagerState
  | .start opts now pid =>
    match startJob cfg s opts now pid with
    | .ok (_, s') => s'
    | .error _ => s
  | .cancel id now => (cancelJob s id now).2
  | .close id code now => onClose s id code now
  | .procError id msg now => onError s id msg now
  | .stdoutLine id raw parsed => onStdoutLine s id raw parsed
  | .stderrLine id raw => onStderrLine s id raw

/-- Run a trace of actions from a given state. -/
def applyTraceFrom (cfg : JobManagerConfig) (s : ManagerState)
    (tr : List MgrAction) : ManagerState :=
  tr.foldl (step cfg) s

/-- Run a trace of actions from the freshly created manager. -/
def applyTrace (cfg : JobManagerConfig) (tr : List MgrAction) : ManagerState :=
  applyTraceFrom cfg initState tr

/-- Time stamp carried by an action, when it has one. -/
def actionTime : MgrAction → Option Int
  | .start _ now _ => some now
  | .cancel _ now => some now
  | .close _ _ now => some now
  | .procError _ _ now => some now
  | .stdoutLine _ _ _ => none
  | .stderrLine _ _ => none

/-- `t` is at or after the creation time of every job in the state. -/
def timeLB (s : ManagerState) (t : Int) : Bool :=
  s.jobs.all (fun j => decide (j.startedAt ≤ t))

/-- A trace is well-timed when each timestamped action happens no earlier
    than the creation of every job already in the registry (clock readings
    from `Date.now()` are non-decreasing). -/
def timesRespect (cfg : JobManagerConfig) : ManagerState → List MgrAction → Bool
  | _, [] => true
  | s, a :: tr =>
    (match actionTime a with
     | none => true
     | some t => timeLB s t) && timesRespect cfg (step cfg s a) tr

/-! ## Generic list lemmas -/

theorem find?_eq_head?_filter (p : α → Bool) :
    ∀ l : List α, l.find? p = (l.filter p).head? := by
  intro l
  induction l with
  | nil => rfl
  | cons a l ih =>
    by_cases ha : p a
    · simp [List.find?_cons_of_pos _ ha, List.filter_cons_of_pos ha]
    · rw [List.find?_cons_of_neg _ (by simpa using ha),
        List.filter_cons_of_neg (by simpa using ha), ih]

theorem filter_map_le (p : TranslationJob → Bool)
    (f : TranslationJob → TranslationJob)
    (hf : ∀ j, p (f j) = true → p j = true) :
    ∀ jobs : List TranslationJob,
      ((jobs.map f).filter p).length ≤ (jobs.filter p).length := by
  intro jobs
  induction jobs with
  | nil => simp
  | cons a l ih =>
    by_cases ha : p (f a)
    · have := hf a ha
      simp [List.filter_cons, ha, this]
      omega
    · simp only [List.map_cons, List.filter_cons]
      by_cases ha' : p a <;> simp [ha, ha'] <;> omega

/-! ## Lemmas about `mapJob` -/

theorem mapJob_id_eq {id : String} {f : TranslationJob → TranslationJob}
    (hf : ∀ j, (f j).id = j.id) (j : TranslationJob) :
    ((fun x => if x.id = id then f x else x) j).id = j.id := by
  by_cases h : j.id = id <;> simp [h, hf]

theorem find?_mapJob {id : String} {f : TranslationJob → TranslationJob}
    (hf : ∀ j, (f j).id = j.id) :
    ∀ {jobs : List TranslationJob} {j : TranslationJob},
      jobs.find? (fun x => decide (x.id = id)) = some j →
      (mapJob jobs id f).find? (fun x => decide (x.id = id)) = some (f j) := by
  intro jobs
  induction jobs with
  | nil => intro j h; simp at h
  | cons a l ih =>
    intro j h
    by_cases ha : a.id = id
    · rw [List.find?_cons_of_pos _ (by simpa using ha)] at h
      have hj : a = j := by simpa using h
      subst hj
      rw [show mapJob (a :: l) id f = f a :: mapJob l id f by
        simp [mapJob, ha]]
      rw [List.find?_cons_of_pos _ (by simp [hf, ha])]
    · rw [List.find?_cons_of_neg _ (by simpa using ha)] at h
      rw [show mapJob (a :: l) id f = a :: mapJob l id f by
        simp [mapJob, ha]]
      rw [List.find?_cons_of_neg _ (by simpa using ha)]
      exact ih h

theorem mem_mapJob {jobs : List TranslationJob} {id : String}
    {f : TranslationJob → TranslationJob} {x : TranslationJob}
    (h : x ∈ mapJob jobs id f) :
    ∃ j ∈ jobs, x = j ∨ x = f j := by
  simp only [mapJob, List.mem_map] at h
  obtain ⟨j, hj, hx⟩ := h
  refine ⟨j, hj, ?_⟩
  by_cases hid : j.id = id
  · right; simp [hid] at hx; exact hx.symm
  · left; simp [hid] at hx; exact hx.symm

/-! ## Lemmas about `getJob` after each operation -/

theorem getJob_onClose {s : ManagerState} {id : String} {j : TranslationJob}
    (code : Option Int) (now : Int) (h : getJob s id = some j) :
    getJob (onClose s id code now) id = some (closeUpdate j code now) :=
  @find?_mapJob id (fun x => closeUpdate x code now) (fun _ => rfl) s.jobs j h

theorem getJob_onError {s : ManagerState} {id : String} {j : TranslationJob}
    (msg : String) (now : Int) (h : getJob s id = some j) :
    getJob (onError s id msg now) id = some (errorUpdate j msg now) :=
  @find?_mapJob id (fun x => errorUpdate x msg now) (fun _ => rfl) s.jobs j h

theorem getJob_onStdoutLine {s : ManagerState} {id : String}
    {j : TranslationJob} (raw : String) (parsed : Option ParsedEvent)
    (h : getJob s id = some j) :
    getJob (onStdoutLine s id raw parsed) id = some (stdoutUpdate j raw parsed) :=
  @find?_mapJob id (fun x => stdoutUpdate x raw parsed) (fun _ => rfl) s.jobs j h

theorem cancelJob_running {s : ManagerState} {id : String} {j : TranslationJob}
    (now : Int) (h : getJob s id = some j) (hr : j.status = JobStatus.running) :
    cancelJob s id now =
      (true,
        { jobs := mapJob s.jobs id
            (fun x => { x with status := JobStatus.cancelled,
                               completedAt := some now })
          procs := s.procs.erase id }) := by
  have h' : s.jobs.find? (fun x => decide (x.id = id)) = some j := h
  simp [cancelJob, h', hr]

theorem getJob_cancelJob_running {s : ManagerState} {id : String}
    {j : TranslationJob} (now : Int) (h : getJob s id = some j)
    (hr : j.status = JobStatus.running) :
    getJob (cancelJob s id now).2 id =
      some { j with status := JobStatus.cancelled, completedAt := some now } := by
  rw [cancelJob_running now h hr]
  exact @find?_mapJob id
    (fun x => { x with status := JobStatus.cancelled, completedAt := some now })
    (fun _ => rfl) s.jobs j h

/-! ## Concrete fixtures used by witnesses and counterexamples -/

/-- A configuration admitting one concurrent job. -/
def cfgOne : JobManagerConfig :=
  { scriptPath := "/opt/translate.py", maxConcurrent := 1 }

/-- A configuration admitting two concurrent jobs. -/
def cfgTwo : JobManagerConfig :=
  { scriptPath := "/opt/translate.py", maxConcurrent := 2 }

/-- A start request writing to `/docs-tw`. -/
def optsA : StartJobOptions := { source := "/docs-en", target := "/docs-tw" }

/-- A second start request writing to the same target `/docs-tw`. -/
def optsA2 : StartJobOptions := { source := "/docs-en2", target := "/docs-tw" }

/-- A start request writing to a different target. -/
def optsB : StartJobOptions := { source := "/docs-en", target := "/docs-other" }

/-- A running job as created by `startJob` at time 0. -/
def jobRun : TranslationJob :=
  { id := "translate-0", status := JobStatus.running, source := "/docs-en",
    target := "/docs-tw", startedAt := 0, completedAt := none,
    progress := { total := 0, completed := 0, failed := 0, currentFile := none },
    outputLines := [], pid := some 42 }

/-- A state holding the single running job `jobRun`. -/
def stRun : ManagerState := { jobs := [jobRun], procs := ["translate-0"] }

/-- The same job after completing at time 3. -/
def jobDone : TranslationJob :=
  { jobRun with status := JobStatus.completed, completedAt := some 3 }

/-- A state holding the single finished job `jobDone`. -/
def stDone : ManagerState := { jobs := [jobDone], procs := [] }

/-! ## C3: process exit reconciliation -/

/-- **C3.** When the worker process exits while the job's status is
`running`, exit code 0 sets the status to `completed` and any other exit
code (or a `null` code) sets it to `failed`, with `completedAt` assigned;
a launch/runtime process error likewise sets a running job's status to
`failed`, appending the error message to the output buffer tagged
`[error] `. -/
theorem C3_exit_sets_final_status :
    (∀ (s : ManagerState) (id : String) (j : TranslationJob)
        (code : Option Int) (now : Int),
      getJob s id = some j → j.status = JobStatus.running →
      getJob (onClose s id code now) id =
        some { j with status := if code = some 0 then JobStatus.completed
                                else JobStatus.failed,
                      completedAt := some now }) ∧
    (∀ (s : ManagerState) (id : String) (j : TranslationJob)
        (msg : String) (now : Int),
      getJob s id = some j → j.status = JobStatus.running →
      getJob (onError s id msg now) id =
        some { j with status := JobStatus.failed, completedAt := some now,
                      outputLines := j.outputLines ++ ["[error] " ++ msg] }) := by
  constructor
  · intro s id j code now h hr
    rw [getJob_onClose code now h]
    simp [closeUpdate, closeStatus, hr]
  · intro s id j msg now h hr
    rw [getJob_onError msg now h]
    simp [errorUpdate, errorStatus, hr]

/-- Witness for C3: a concrete running job closed with code 0, closed with
code 2, and hit by a spawn error. -/
theorem C3_exit_sets_final_status_witness :
    getJob (onClose stRun "translate-0" (some 0) 7) "translate-0" =
      some { jobRun with status := JobStatus.completed, completedAt := some 7 } ∧
    getJob (onClose stRun "translate-0" (some 2) 7) "translate-0" =
      some { jobRun with status := JobStatus.failed, completedAt := some 7 } ∧
    getJob (onError stRun "translate-0" "spawn python3 ENOENT" 7) "translate-0" =
      some { jobRun with status := JobStatus.failed, completedAt := some 7,
                         outputLines := ["[error] spawn python3 ENOENT"] } := by
  refine ⟨?_, ?_, ?_⟩
  · simpa using
      C3_exit_sets_final_status.1 stRun "translate-0" jobRun (some 0) 7 rfl rfl
  · simpa using
      C3_exit_sets_final_status.1 stRun "translate-0" jobRun (some 2) 7 rfl rfl
  · simpa [jobRun] using
      C3_exit_sets_final_status.2 stRun "translate-0" jobRun
        "spawn python3 ENOENT" 7 rfl rfl

/-! ## C4: cancellation semantics -/

/-- **C4.** `cancelJob` on a running job immediately sets its status to
`cancelled` with `completedAt`, and returns `true`; a process-exit
notification delivered afterwards does not change the job's status;
`cancelJob` on a non-running job or an unknown id returns `false` and
mutates no state. -/
theorem C4_cancel_semantics :
    (∀ (s : ManagerState) (id : String) (j : TranslationJob) (now : Int),
      getJob s id = some j → j.status = JobStatus.running →
      (cancelJob s id now).1 = true ∧
      getJob (cancelJob s id now).2 id =
        some { j with status := JobStatus.cancelled,
                      completedAt := some now } ∧
      (∀ (code : Option Int) (later : Int),
        (getJob (onClose (cancelJob s id now).2 id code later) id).map
            TranslationJob.status = some JobStatus.cancelled)) ∧
    (∀ (s : ManagerState) (id : String) (j : TranslationJob) (now : Int),
      getJob s id = some j → j.status ≠ JobStatus.running →
      cancelJob s id now = (false, s)) ∧
    (∀ (s : ManagerState) (id : String) (now : Int),
      getJob s id = none → cancelJob s id now = (false, s)) := by
  refine ⟨?_, ?_, ?_⟩
  · intro s id j now h hr
    refine ⟨by rw [cancelJob_running now h hr], getJob_cancelJob_running now h hr,
      ?_⟩
    intro code later
    have h2 := getJob_cancelJob_running now h hr
    rw [getJob_onClose code later h2]
    simp [closeUpdate, closeStatus]
  · intro s id j now h hnr
    have h' : s.jobs.find? (fun x => decide (x.id = id)) = some j := h
    simp [cancelJob, h', hnr]
  · intro s id now h
    have h' : s.jobs.find? (fun x => decide (x.id = id)) = none := h
    simp [cancelJob, h']

/-- Witness for C4: cancelling the concrete running job, a late close for
it, cancelling a finished job, and cancelling an unknown id. -/
theorem C4_cancel_semantics_witness :
    (cancelJob stRun "translate-0" 5).1 = true ∧
    getJob (cancelJob stRun "translate-0" 5).2 "translate-0" =
      some { jobRun with status := JobStatus.cancelled, completedAt := some 5 } ∧
    (getJob (onClose (cancelJob stRun "translate-0" 5).2 "translate-0"
        (some 0) 9) "translate-0").map TranslationJob.status =
      some JobStatus.cancelled ∧
    cancelJob stDone "translate-0" 5 = (false, stDone) ∧
    cancelJob stRun "translate-missing" 5 = (false, stRun) := by
  obtain ⟨h1, h2, h3⟩ :=
    C4_cancel_semantics.1 stRun "translate-0" jobRun 5 rfl rfl
  refine ⟨h1, h2, h3 (some 0) 9, ?_, ?_⟩
  · exact C4_cancel_semantics.2.1 stDone "translate-0" jobDone 5 rfl (by decide)
  · exact C4_cancel_semantics.2.2 stRun "translate-missing" 5 rfl

/-! ## C5: the `completedAt` discipline -/

/-- **C5 counterexample.** `completedAt` is NOT written exactly once: cancel
a running job at time 1 (`completedAt = 1`), then deliver the worker's late
`close` notification at time 2 — the handler assigns `completedAt`
unconditionally, so the already-set value changes to 2. -/
theorem C5_completedAt_rewritten_by_late_close :
    ((applyTrace cfgOne [MgrAction.start optsA 0 none,
        MgrAction.cancel "translate-0" 1]).jobs.map
      (fun j => j.completedAt)) = [some 1] ∧
    ((applyTrace cfgOne [MgrAction.start optsA 0 none,
        MgrAction.cancel "translate-0" 1,
        MgrAction.close "translate-0" none 2]).jobs.map
      (fun j => j.completedAt)) = [some 2] := by
  exact ⟨rfl, rfl⟩

/-- The completion-time invariant of one job record: `completedAt` is set
    iff the job has left `running`, and is never before `startedAt`. -/
def CompletedInv (j : TranslationJob) : Prop :=
  (j.completedAt = none ↔ j.status = JobStatus.running) ∧
  (∀ c : Int, j.completedAt = some c → j.startedAt ≤ c)

/-- `CompletedInv` for every job in the registry. -/
def StateCompletedInv (s : ManagerState) : Prop :=
  ∀ j ∈ s.jobs, CompletedInv j

theorem timeLB_le {s : ManagerState} {t : Int} (h : timeLB s t = true) :
    ∀ j ∈ s.jobs, j.startedAt ≤ t := by
  intro j hj
  simpa using List.all_eq_true.1 h j hj

theorem mem_setJob {jobs : List TranslationJob} {job x : TranslationJob}
    (h : x ∈ setJob jobs job) : x ∈ jobs ∨ x = job := by
  unfold setJob at h
  split at h
  · obtain ⟨j, hj, hx⟩ := List.mem_map.1 h
    by_cases hid : j.id = job.id
    · right; simp [hid] at hx; exact hx.symm
    · left; simp [hid] at hx; exact hx ▸ hj
  · rcases List.mem_append.1 h with h | h
    · left; exact h
    · right; simpa using h

theorem closeStatus_ne_running (j : TranslationJob) (code : Option Int) :
    closeStatus j code ≠ JobStatus.running := by
  unfold closeStatus
  split
  · split <;> simp
  · assumption

theorem errorStatus_ne_running (j : TranslationJob) :
    errorStatus j ≠ JobStatus.running := by
  unfold errorStatus
  split
  · simp
  · assumption

theorem startJob_ok_state {cfg : JobManagerConfig} {s : ManagerState}
    {opts : StartJobOptions} {now : Int} {pid : Option Int}
    {job : TranslationJob} {s' : ManagerState}
    (h : startJob cfg s opts now pid = Except.ok (job, s')) :
    job = startedJob opts now pid ∧
    s' = { jobs := setJob s.jobs (startedJob opts now pid)
           procs := s.procs ++ [(startedJob opts now pid).id] } ∧
    runningCount s < cfg.maxConcurrent ∧
    findRunningTarget s.jobs opts.target = none := by
  unfold startJob at h
  by_cases hc : runningCount s ≥ cfg.maxConcurrent
  · simp [hc] at h
  · rcases hfind : findRunningTarget s.jobs opts.target with _ | j0
    · simp [hc, hfind] at h
      exact ⟨h.1.symm, h.2.symm, lt_of_not_ge hc, rfl⟩
    · simp [hc, hfind] at h

theorem completedInv_step (cfg : JobManagerConfig) (s : ManagerState)
    (a : MgrAction) (hs : StateCompletedInv s)
    (ht : ∀ t, actionTime a = some t → timeLB s t = true) :
    StateCompletedInv (step cfg s a) := by
  cases a with
  | start opts now pid =>
    cases hr : startJob cfg s opts now pid with
    | error e => simpa [step, hr] using hs
    | ok v =>
      obtain ⟨job, s'⟩ := v
      obtain ⟨hjob, hs', _, _⟩ := startJob_ok_state hr
      have hstep : step cfg s (MgrAction.start opts now pid) = s' := by
        simp [step, hr]
      rw [hstep, hs']
      intro x hx
      rcases mem_setJob hx with hmem | hnew
      · exact hs x hmem
      · subst hnew
        refine ⟨by simp [startedJob], ?_⟩
        intro c hc
        simp [startedJob] at hc
  | cancel id now =>
    have htime := ht now rfl
    show StateCompletedInv (cancelJob s id now).2
    rcases hfind : s.jobs.find? (fun x => decide (x.id = id)) with _ | job
    · have heq : cancelJob s id now = (false, s) := by simp [cancelJob, hfind]
      rw [heq]; exact hs
    · by_cases hrun : job.status = JobStatus.running
      · rw [cancelJob_running now hfind hrun]
        intro x hx
        rcases mem_mapJob hx with ⟨j, hj, hcase⟩
        rcases hcase with hxe | hxe
        · exact hxe ▸ hs j hj
        · subst hxe
          refine ⟨by simp, ?_⟩
          intro c hc
          simp only [Option.some.injEq] at hc
          subst hc
          simpa using timeLB_le htime j hj
      · have heq : cancelJob s id now = (false, s) := by
          simp [cancelJob, hfind, hrun]
        rw [heq]; exact hs
  | close id code now =>
    have htime := ht now rfl
    show StateCompletedInv (onClose s id code now)
    intro x hx
    rcases mem_mapJob hx with ⟨j, hj, hcase⟩
    rcases hcase with hxe | hxe
    · exact hxe ▸ hs j hj
    · subst hxe
      refine ⟨by simp [closeUpdate, closeStatus_ne_running j code], ?_⟩
      intro c hc
      simp only [closeUpdate, Option.some.injEq] at hc
      subst hc
      simpa [closeUpdate] using timeLB_le htime j hj
  | procError id msg now =>
    have htime := ht now rfl
    show StateCompletedInv (onError s id msg now)
    intro x hx
    rcases mem_mapJob hx with ⟨j, hj, hcase⟩
    rcases hcase with hxe | hxe
    · exact hxe ▸ hs j hj
    · subst hxe
      refine ⟨by simp [errorUpdate, errorStatus_ne_running j], ?_⟩
      intro c hc
      simp only [errorUpdate, Option.some.injEq] at hc
      subst hc
      simpa [errorUpdate] using timeLB_le htime j hj
  | stdoutLine id raw parsed =>
    show StateCompletedInv (onStdoutLine s id raw parsed)
    intro x hx
    rcases mem_mapJob hx with ⟨j, hj, hcase⟩
    rcases hcase with hxe | hxe
    · exact hxe ▸ hs j hj
    · subst hxe
      have := hs j hj
      simpa [CompletedInv, stdoutUpdate] using this
  | stderrLine id raw =>
    show StateCompletedInv (onStderrLine s id raw)
    intro x hx
    rcases mem_mapJob hx with ⟨j, hj, hcase⟩
    rcases hcase with hxe | hxe
    · exact hxe ▸ hs j hj
    · subst hxe
      have := hs j hj
      simpa [CompletedInv, stderrUpdate] using this

theorem completedInv_trace (cfg : JobManagerConfig) :
    ∀ (tr : List MgrAction) (s : ManagerState),
      timesRespect cfg s tr = true → StateCompletedInv s →
      StateCompletedInv (applyTraceFrom cfg s tr) := by
  intro tr
  induction tr with
  | nil => intro s _ hs; exact hs
  | cons a tr ih =>
    intro s htr hs
    have h1 :
        (match actionTime a with
         | none => true
         | some t => timeLB s t) = true ∧
        timesRespect cfg (step cfg s a) tr = true := by
      simpa [timesRespect, Bool.and_eq_true] using htr
    have hstep : StateCompletedInv (step cfg s a) :=
      completedInv_step cfg s a hs (fun t htv => by
        have h := h1.1
        rw [htv] at h
        exact h)
    exact ih (step cfg s a) h1.2 hstep

/-- **C5 (amended).** Over every well-timed trace (each call's or callback's
clock reading is no earlier than the creation time of every registered job),
every job satisfies: `completedAt` is set iff the job has left `running` —
it is assigned the moment the job leaves `running` — and when set it is
≥ `startedAt`. The original claim's "written exactly once and thereafter
never changed" does not hold (see the counterexample): a late process-exit
or process-error notification after cancellation reassigns `completedAt`. -/
theorem C5_completedAt_iff_not_running (cfg : JobManagerConfig)
    (tr : List MgrAction) (h : timesRespect cfg initState tr = true) :
    ∀ j ∈ (applyTrace cfg tr).jobs,
      (j.completedAt = none ↔ j.status = JobStatus.running) ∧
      (∀ c : Int, j.completedAt = some c → j.startedAt ≤ c) :=
  completedInv_trace cfg tr initState h (by intro j hj; simp [initState] at hj)

/-- The trace used by the C5 witness: start at time 0, worker exits cleanly
    at time 5. -/
def trCW : List MgrAction :=
  [MgrAction.start optsA 0 none, MgrAction.close "translate-0" (some 0) 5]

/-- The job record the C5 witness trace produces. -/
def jobCW : TranslationJob :=
  { id := "translate-0", status := JobStatus.completed, source := "/docs-en",
    target := "/docs-tw", startedAt := 0, completedAt := some 5,
    progress := { total := 0, completed := 0, failed := 0, currentFile := none },
    outputLines := [], pid := none }

/-- Witness for C5 (amended), at the concrete trace `trCW`. -/
theorem C5_completedAt_iff_not_running_witness :
    timesRespect cfgOne initState trCW = true ∧
    jobCW ∈ (applyTrace cfgOne trCW).jobs ∧
    ((jobCW.completedAt = none ↔ jobCW.status = JobStatus.running) ∧
      jobCW.startedAt ≤ 5) := by
  have h1 : timesRespect cfgOne initState trCW = true := by decide
  have h2 : jobCW ∈ (applyTrace cfgOne trCW).jobs := by decide
  have h3 := C5_completedAt_iff_not_running cfgOne trCW h1 jobCW h2
  exact ⟨h1, h2, h3.1, h3.2 5 rfl⟩

/-! ## C1/C2: admission invariants -/

/-- Registry keys are pairwise distinct (a JS `Map` guarantees this). -/
def NodupIds (jobs : List TranslationJob) : Prop :=
  List.Pairwise (fun a b => a.id ≠ b.id) jobs

theorem map_replace_id (x : TranslationJob) :
    ∀ l : List TranslationJob, (∀ j ∈ l, j.id ≠ x.id) →
      l.map (fun j => if j.id = x.id then x else j) = l := by
  intro l
  induction l with
  | nil => intro _; rfl
  | cons a t ih =>
    intro h
    rw [List.map_cons, if_neg (h a (by simp)), ih (fun j hj => h j (by simp [hj]))]

theorem length_filter_replace_le (p : TranslationJob → Bool)
    (x : TranslationJob) :
    ∀ jobs : List TranslationJob, NodupIds jobs →
      ((jobs.map (fun j => if j.id = x.id then x else j)).filter p).length ≤
        (jobs.filter p).length + 1 := by
  intro jobs
  induction jobs with
  | nil => intro _; simp
  | cons a t ih =>
    intro hnd
    rw [NodupIds, List.pairwise_cons] at hnd
    obtain ⟨ha, ht⟩ := hnd
    by_cases haid : a.id = x.id
    · have htail : t.map (fun j => if j.id = x.id then x else j) = t :=
        map_replace_id x t (fun j hj hje => ha j hj (haid.trans hje.symm))
      rw [List.map_cons, if_pos haid, htail]
      simp only [List.filter_cons]
      by_cases hpx : p x <;> by_cases hpa : p a <;>
        (simp [hpx, hpa]; try omega)
    · rw [List.map_cons, if_neg haid]
      simp only [List.filter_cons]
      have := ih ht
      by_cases hpa : p a <;> simp [hpa] <;> omega

theorem length_filter_replace_notp (p : TranslationJob → Bool)
    (x : TranslationJob) (hx : p x = false) :
    ∀ jobs : List TranslationJob,
      ((jobs.map (fun j => if j.id = x.id then x else j)).filter p).length ≤
        (jobs.filter p).length := by
  intro jobs
  induction jobs with
  | nil => simp
  | cons a t ih =>
    by_cases haid : a.id = x.id
    · rw [List.map_cons, if_pos haid]
      simp only [List.filter_cons, hx]
      by_cases hpa : p a <;> simp [hpa] <;> omega
    · rw [List.map_cons, if_neg haid]
      simp only [List.filter_cons]
      by_cases hpa : p a <;> simp [hpa] <;> omega

theorem length_filter_setJob_le (p : TranslationJob → Bool)
    (jobs : List TranslationJob) (job : TranslationJob) (h : NodupIds jobs) :
    ((setJob jobs job).filter p).length ≤ (jobs.filter p).length + 1 := by
  unfold setJob
  split
  · exact length_filter_replace_le p job jobs h
  · rw [List.filter_append]
    simp only [List.length_append]
    by_cases hp : p job <;> simp [hp]

theorem length_filter_setJob_notp (p : TranslationJob → Bool)
    (jobs : List TranslationJob) (job : TranslationJob) (hp : p job = false) :
    ((setJob jobs job).filter p).length ≤ (jobs.filter p).length := by
  unfold setJob
  split
  · exact length_filter_replace_notp p job hp jobs
  · rw [List.filter_append]
    simp [hp]

theorem nodupIds_setJob {jobs : List TranslationJob} (job : TranslationJob)
    (h : NodupIds jobs) : NodupIds (setJob jobs job) := by
  unfold setJob
  split
  · rw [NodupIds, List.pairwise_map]
    refine List.Pairwise.imp ?_ h
    intro a b hab
    have key : ∀ y : TranslationJob, (if y.id = job.id then job else y).id = y.id := by
      intro y
      split
      · next hy => exact hy.symm
      · rfl
    rw [key a, key b]
    exact hab
  · next hany =>
    rw [NodupIds, List.pairwise_append]
    refine ⟨h, by simp [NodupIds], ?_⟩
    intro a ha b hb
    simp only [List.mem_singleton] at hb
    subst hb
    intro heq
    exact hany (List.any_eq_true.2 ⟨a, ha, by simp [heq]⟩)

theorem mapJob_point_id {id : String} {f : TranslationJob → TranslationJob}
    (hf : ∀ j, (f j).id = j.id) (j : TranslationJob) :
    (if j.id = id then f j else j).id = j.id := by
  split <;> simp [hf]

theorem nodupIds_mapJob {jobs : List TranslationJob} (id : String)
    (f : TranslationJob → TranslationJob) (hf : ∀ j, (f j).id = j.id)
    (h : NodupIds jobs) : NodupIds (mapJob jobs id f) := by
  unfold mapJob NodupIds
  rw [List.pairwise_map]
  refine List.Pairwise.imp ?_ h
  intro a b hab
  rw [mapJob_point_id hf a, mapJob_point_id hf b]
  exact hab

/-- The invariant the admission checks maintain: unique registry keys, the
    running count bounded by `maxConcurrent`, and at most one running job
    per target. -/
structure AdmissionInv (cfg : JobManagerConfig) (s : ManagerState) : Prop where
  nodup : NodupIds s.jobs
  capacity : runningCount s ≤ cfg.maxConcurrent
  mutex : ∀ t : String,
    ((s.jobs.filter
      (fun j => decide (j.status = JobStatus.running ∧ j.target = t))).length) ≤ 1

theorem admissionInv_init (cfg : JobManagerConfig) :
    AdmissionInv cfg initState := by
  refine ⟨by simp [NodupIds, initState], ?_, ?_⟩
  · simp [runningCount, initState]
  · intro t; simp [initState]

theorem admissionInv_mapJob (cfg : JobManagerConfig) (s : ManagerState)
    (id : String) (f : TranslationJob → TranslationJob)
    (procs2 : List String)
    (hid : ∀ j, (f j).id = j.id)
    (htar : ∀ j, (f j).target = j.target)
    (hrun : ∀ j, (f j).status = JobStatus.running →
      j.status = JobStatus.running)
    (h : AdmissionInv cfg s) :
    AdmissionInv cfg { jobs := mapJob s.jobs id f, procs := procs2 } := by
  refine ⟨nodupIds_mapJob id f hid h.nodup, ?_, ?_⟩
  · refine le_trans (filter_map_le _ _ ?_ s.jobs) h.capacity
    intro j hj
    by_cases hjid : j.id = id
    · simp only [hjid, if_true, decide_eq_true_eq] at hj
      simp only [decide_eq_true_eq]
      exact hrun j hj
    · simpa [hjid] using hj
  · intro t
    refine le_trans (filter_map_le _ _ ?_ s.jobs) (h.mutex t)
    intro j hj
    by_cases hjid : j.id = id
    · simp only [hjid, if_true, decide_eq_true_eq] at hj
      simp only [decide_eq_true_eq]
      refine ⟨hrun j hj.1, ?_⟩
      rw [← htar j]
      exact hj.2
    · simpa [hjid] using hj

theorem admissionInv_step (cfg : JobManagerConfig) (s : ManagerState)
    (a : MgrAction) (h : AdmissionInv cfg s) :
    AdmissionInv cfg (step cfg s a) := by
  cases a with
  | start opts now pid =>
    cases hr : startJob cfg s opts now pid with
    | error e => simpa [step, hr] using h
    | ok v =>
      obtain ⟨job, s'⟩ := v
      obtain ⟨hjob, hs', hcap, hfind⟩ := startJob_ok_state hr
      have hstep : step cfg s (MgrAction.start opts now pid) = s' := by
        simp [step, hr]
      rw [hstep, hs']
      refine ⟨nodupIds_setJob _ h.nodup, ?_, ?_⟩
      · have hle := length_filter_setJob_le
          (fun j => decide (j.status = JobStatus.running)) s.jobs
          (startedJob opts now pid) h.nodup
        have hlt : runningCount s < cfg.maxConcurrent := hcap
        unfold runningCount at hlt ⊢
        dsimp only at hle hlt ⊢
        omega
      · intro t
        by_cases htgt : t = opts.target
        · subst htgt
          have hnil : s.jobs.filter
              (fun j => decide (j.status = JobStatus.running ∧
                j.target = opts.target)) = [] := by
            rw [List.filter_eq_nil_iff]
            intro a ha
            have := List.find?_eq_none.1 hfind a ha
            simpa using this
          have hle := length_filter_setJob_le
            (fun j => decide (j.status = JobStatus.running ∧
              j.target = opts.target))
            s.jobs (startedJob opts now pid) h.nodup
          rw [hnil] at hle
          simpa using hle
        · have hne : ¬ (opts.target = t) := fun he => htgt he.symm
          have hp : (fun j => decide (j.status = JobStatus.running ∧
              j.target = t)) (startedJob opts now pid) = false := by
            simp [startedJob, hne]
          exact le_trans
            (length_filter_setJob_notp _ s.jobs (startedJob opts now pid) hp)
            (h.mutex t)
  | cancel id now =>
    show AdmissionInv cfg (cancelJob s id now).2
    rcases hfindj : s.jobs.find? (fun x => decide (x.id = id)) with _ | job
    · have heq : cancelJob s id now = (false, s) := by
        simp [cancelJob, hfindj]
      rw [heq]; exact h
    · by_cases hrunj : job.status = JobStatus.running
      · rw [cancelJob_running now hfindj hrunj]
        exact admissionInv_mapJob cfg s id _ _ (fun _ => rfl) (fun _ => rfl)
          (fun j hj => by simp at hj) h
      · have heq : cancelJob s id now = (false, s) := by
          simp [cancelJob, hfindj, hrunj]
        rw [heq]; exact h
  | close id code now =>
    exact admissionInv_mapJob cfg s id _ _ (fun _ => rfl) (fun _ => rfl)
      (fun j hj => absurd hj (closeStatus_ne_running j code)) h
  | procError id msg now =>
    exact admissionInv_mapJob cfg s id _ _ (fun _ => rfl) (fun _ => rfl)
      (fun j hj => absurd hj (errorStatus_ne_running j)) h
  | stdoutLine id raw parsed =>
    exact admissionInv_mapJob cfg s id _ _ (fun _ => rfl) (fun _ => rfl)
      (fun j hj => hj) h
  | stderrLine id raw =>
    exact admissionInv_mapJob cfg s id _ _ (fun _ => rfl) (fun _ => rfl)
      (fun j hj => hj) h

theorem admissionInv_trace (cfg : JobManagerConfig) :
    ∀ (tr : List MgrAction) (s : ManagerState), AdmissionInv cfg s →
      AdmissionInv cfg (applyTraceFrom cfg s tr) := by
  intro tr
  induction tr with
  | nil => intro s hs; exact hs
  | cons a tr ih => intro s hs; exact ih (step cfg s a) (admissionInv_step cfg s a hs)

/-- **C1.** For every sequence of calls and callbacks, the number of jobs
with `status = running` never exceeds the configured `maxConcurrent`; and a
`startJob` call made while the running count already equals `maxConcurrent`
throws the capacity-exceeded error and adds no job record (the state is
unchanged). -/
theorem C1_running_never_exceeds_max (cfg : JobManagerConfig) :
    (∀ tr : List MgrAction,
      runningCount (applyTrace cfg tr) ≤ cfg.maxConcurrent) ∧
    (∀ (s : ManagerState) (opts : StartJobOptions) (now : Int)
        (pid : Option Int),
      runningCount s = cfg.maxConcurrent →
      startJob cfg s opts now pid =
        Except.error (StartError.capacityExceeded cfg.maxConcurrent) ∧
      step cfg s (MgrAction.start opts now pid) = s) := by
  constructor
  · intro tr
    exact (admissionInv_trace cfg tr initState (admissionInv_init cfg)).capacity
  · intro s opts now pid hcount
    have herr : startJob cfg s opts now pid =
        Except.error (StartError.capacityExceeded cfg.maxConcurrent) := by
      unfold startJob
      rw [if_pos hcount.ge]
    exact ⟨herr, by simp [step, herr]⟩

/-- Witness for C1: with `maxConcurrent = 1` and one running job, the
running count is at (and not above) the cap, and the next `startJob` is
rejected with the capacity error. -/
theorem C1_running_never_exceeds_max_witness :
    runningCount (applyTrace cfgOne [MgrAction.start optsA 0 none]) ≤
      cfgOne.maxConcurrent ∧
    runningCount (applyTrace cfgOne [MgrAction.start optsA 0 none]) =
      cfgOne.maxConcurrent ∧
    startJob cfgOne (applyTrace cfgOne [MgrAction.start optsA 0 none]) optsB 1
        none = Except.error (StartError.capacityExceeded 1) := by
  refine ⟨(C1_running_never_exceeds_max cfgOne).1 _, by decide, ?_⟩
  exact ((C1_running_never_exceeds_max cfgOne).2 _ optsB 1 none (by decide)).1

/-- **C2 counterexample.** With `maxConcurrent = 1` and a running job
holding `/docs-tw` (id `translate-0`), a second `startJob` for the same
target is rejected with the capacity-exceeded error — the capacity check
runs before the target check — not with the target-busy error naming the
first job, as the claim states. -/
theorem C2_capacity_error_shadows_target_busy :
    startJob cfgOne (applyTrace cfgOne [MgrAction.start optsA 0 none]) optsA2
        1 none = Except.error (StartError.capacityExceeded 1) ∧
    startJob cfgOne (applyTrace cfgOne [MgrAction.start optsA 0 none]) optsA2
        1 none ≠
      Except.error (StartError.targetBusy "/docs-tw" "translate-0") := by
  have h1 : startJob cfgOne (applyTrace cfgOne [MgrAction.start optsA 0 none])
      optsA2 1 none = Except.error (StartError.capacityExceeded 1) := rfl
  refine ⟨h1, ?_⟩
  rw [h1]
  intro hcontra
  simp at hcontra

/-- **C2 (amended).** At most one running job holds a given target at any
time; and a `startJob` call whose target is held by a running job, made
while the running count is still strictly below `maxConcurrent`, throws the
target-busy error naming the conflicting job's id and adds no job record.
(When the running count has already reached `maxConcurrent`, the capacity
error takes precedence — see the counterexample.) -/
theorem C2_target_mutual_exclusion (cfg : JobManagerConfig) :
    (∀ (tr : List MgrAction) (t : String),
      ((applyTrace cfg tr).jobs.filter
        (fun j => decide (j.status = JobStatus.running ∧
          j.target = t))).length ≤ 1) ∧
    (∀ (tr : List MgrAction) (opts : StartJobOptions) (now : Int)
        (pid : Option Int) (j : TranslationJob),
      j ∈ (applyTrace cfg tr).jobs → j.status = JobStatus.running →
      j.target = opts.target →
      runningCount (applyTrace cfg tr) < cfg.maxConcurrent →
      startJob cfg (applyTrace cfg tr) opts now pid =
        Except.error (StartError.targetBusy opts.target j.id) ∧
      step cfg (applyTrace cfg tr) (MgrAction.start opts now pid) =
        applyTrace cfg tr) := by
  have hmutex : ∀ (tr : List MgrAction) (t : String),
      ((applyTrace cfg tr).jobs.filter
        (fun j => decide (j.status = JobStatus.running ∧
          j.target = t))).length ≤ 1 := fun tr t =>
    (admissionInv_trace cfg tr initState (admissionInv_init cfg)).mutex t
  refine ⟨hmutex, ?_⟩
  intro tr opts now pid j hj hrun htar hcap
  have hmem : j ∈ (applyTrace cfg tr).jobs.filter
      (fun x => decide (x.status = JobStatus.running ∧
        x.target = opts.target)) :=
    List.mem_filter.2 ⟨hj, by simp [hrun, htar]⟩
  have hpos : 0 < ((applyTrace cfg tr).jobs.filter
      (fun x => decide (x.status = JobStatus.running ∧
        x.target = opts.target))).length :=
    List.length_pos_of_mem hmem
  have hone : ((applyTrace cfg tr).jobs.filter
      (fun x => decide (x.status = JobStatus.running ∧
        x.target = opts.target))).length = 1 := by
    have := hmutex tr opts.target
    omega
  obtain ⟨a, hfa⟩ := List.length_eq_one.1 hone
  have hja : j = a := by
    rw [hfa] at hmem
    simpa using hmem
  subst hja
  have hfindt : findRunningTarget (applyTrace cfg tr).jobs opts.target =
      some j := by
    unfold findRunningTarget
    rw [find?_eq_head?_filter, hfa]
    rfl
  have herr : startJob cfg (applyTrace cfg tr) opts now pid =
      Except.error (StartError.targetBusy opts.target j.id) := by
    unfold startJob
    rw [if_neg (not_le.2 hcap), hfindt]
  exact ⟨herr, by simp [step, herr]⟩

/-- Witness for C2 (amended): `maxConcurrent = 2`, one running job on
`/docs-tw`; a second start for the same target is rejected with the
target-busy error naming `translate-0`. -/
theorem C2_target_mutual_exclusion_witness :
    ((applyTrace cfgTwo [MgrAction.start optsA 0 none]).jobs.filter
      (fun j => decide (j.status = JobStatus.running ∧
        j.target = "/docs-tw"))).length ≤ 1 ∧
    startedJob optsA 0 none ∈
      (applyTrace cfgTwo [MgrAction.start optsA 0 none]).jobs ∧
    runningCount (applyTrace cfgTwo [MgrAction.start optsA 0 none]) <
      cfgTwo.maxConcurrent ∧
    startJob cfgTwo (applyTrace cfgTwo [MgrAction.start optsA 0 none]) optsA2
        1 none =
      Except.error (StartError.targetBusy "/docs-tw" "translate-0") := by
  have h2 := ((C2_target_mutual_exclusion cfgTwo).2
    [MgrAction.start optsA 0 none] optsA2 1 none (startedJob optsA 0 none)
    (by decide) rfl rfl (by decide)).1
  exact ⟨(C2_target_mutual_exclusion cfgTwo).1 _ _, by decide, by decide, h2⟩

/-! ## C6: event interpretation -/

/-- Folding a sequence of stdout lines (raw text plus parse outcome) into a
    job, in arrival order. -/
def foldStdoutLines (j : TranslationJob)
    (ls : List (String × Option ParsedEvent)) : TranslationJob :=
  ls.foldl (fun acc p => stdoutUpdate acc p.1 p.2) j

theorem applyEvent_counters_mono (p : Progress) (e : ParsedEvent) :
    p.completed ≤ (applyEvent p e).completed ∧
    p.failed ≤ (applyEvent p e).failed := by
  unfold applyEvent
  split
  · exact ⟨le_refl _, le_refl _⟩
  · split
    · exact ⟨le_refl _, le_refl _⟩
    · split
      · exact ⟨Nat.le_succ _, le_refl _⟩
      · split
        · exact ⟨Nat.le_succ _, Nat.le_succ _⟩
        · split
          · exact ⟨le_refl _, le_refl _⟩
          · exact ⟨le_refl _, le_refl _⟩

theorem stdoutUpdate_counters_mono (j : TranslationJob) (raw : String)
    (parsed : Option ParsedEvent) :
    j.progress.completed ≤ (stdoutUpdate j raw parsed).progress.completed ∧
    j.progress.failed ≤ (stdoutUpdate j raw parsed).progress.failed := by
  cases parsed with
  | none => exact ⟨le_refl _, le_refl _⟩
  | some e => exact applyEvent_counters_mono j.progress e

theorem foldStdoutLines_counters_mono (j : TranslationJob) :
    ∀ ls : List (String × Option ParsedEvent),
      j.progress.completed ≤ (foldStdoutLines j ls).progress.completed ∧
      j.progress.failed ≤ (foldStdoutLines j ls).progress.failed := by
  suffices h : ∀ (ls : List (String × Option ParsedEvent))
      (x : TranslationJob),
      x.progress.completed ≤ (foldStdoutLines x ls).progress.completed ∧
      x.progress.failed ≤ (foldStdoutLines x ls).progress.failed by
    intro ls; exact h ls j
  intro ls
  induction ls with
  | nil => intro x; exact ⟨le_refl _, le_refl _⟩
  | cons a tl ih =>
    intro x
    have h1 := stdoutUpdate_counters_mono x a.1 a.2
    have h2 := ih (stdoutUpdate x a.1 a.2)
    exact ⟨le_trans h1.1 h2.1, le_trans h1.2 h2.2⟩

/-- **C6.** Folding primary-stream lines into a job's progress, in arrival
order: an `init` event sets `progress.total` to the event's pending count;
`file_start` sets `progress.currentFile`; `file_ok` increments
`progress.completed` and sets `currentFile`; `file_fail` increments both
`progress.completed` and `progress.failed` and sets `currentFile`; `done`
and unrecognized (or missing) event kinds change no progress field; a line
that fails to parse is still appended to the (capped) output buffer but
changes no progress field; consequently `progress.completed` and
`progress.failed` never decrease over any sequence of lines. -/
theorem C6_event_folding :
    (∀ (j : TranslationJob) (raw : String) (e : ParsedEvent) (n : Int),
      e.event = some "init" → e.pending = some n →
      (stdoutUpdate j raw (some e)).progress =
        { j.progress with total := n }) ∧
    (∀ (j : TranslationJob) (raw : String) (e : ParsedEvent),
      e.event = some "file_start" →
      (stdoutUpdate j raw (some e)).progress =
        { j.progress with currentFile := e.file }) ∧
    (∀ (j : TranslationJob) (raw : String) (e : ParsedEvent),
      e.event = some "file_ok" →
      (stdoutUpdate j raw (some e)).progress =
        { j.progress with completed := j.progress.completed + 1,
                          currentFile := e.file }) ∧
    (∀ (j : TranslationJob) (raw : String) (e : ParsedEvent),
      e.event = some "file_fail" →
      (stdoutUpdate j raw (some e)).progress =
        { j.progress with completed := j.progress.completed + 1,
                          failed := j.progress.failed + 1,
                          currentFile := e.file }) ∧
    (∀ (j : TranslationJob) (raw : String) (e : ParsedEvent),
      e.event = some "done" →
      (stdoutUpdate j raw (some e)).progress = j.progress) ∧
    (∀ (j : TranslationJob) (raw : String) (e : ParsedEvent) (k : String),
      e.event = some k → k ≠ "init" → k ≠ "file_start" → k ≠ "file_ok" →
      k ≠ "file_fail" →
      (stdoutUpdate j raw (some e)).progress = j.progress) ∧
    (∀ (j : TranslationJob) (raw : String) (e : ParsedEvent),
      e.event = none →
      (stdoutUpdate j raw (some e)).progress = j.progress) ∧
    (∀ (j : TranslationJob) (raw : String),
      (stdoutUpdate j raw none).progress = j.progress ∧
      (stdoutUpdate j raw none).outputLines =
        pushCapped j.outputLines raw) ∧
    (∀ (j : TranslationJob) (ls : List (String × Option ParsedEvent)),
      j.progress.completed ≤ (foldStdoutLines j ls).progress.completed ∧
      j.progress.failed ≤ (foldStdoutLines j ls).progress.failed) := by
  refine ⟨?_, ?_, ?_, ?_, ?_, ?_, ?_, ?_, ?_⟩
  · intro j raw e n he hp
    simp [stdoutUpdate, applyEvent, he, hp]
  · intro j raw e he
    simp [stdoutUpdate, applyEvent, he]
  · intro j raw e he
    simp [stdoutUpdate, applyEvent, he]
  · intro j raw e he
    simp [stdoutUpdate, applyEvent, he]
  · intro j raw e he
    simp [stdoutUpdate, applyEvent, he]
  · intro j raw e k he h1 h2 h3 h4
    simp [stdoutUpdate, applyEvent, he, h1, h2, h3, h4]
  · intro j raw e he
    simp [stdoutUpdate, applyEvent, he]
  · intro j raw
    exact ⟨rfl, rfl⟩
  · exact foldStdoutLines_counters_mono

/-- Concrete events used by the C6 witness. -/
def evInit : ParsedEvent := { event := some "init", pending := some 3 }

/-- A `file_fail` event for `a.md`. -/
def evFail : ParsedEvent := { event := some "file_fail", file := some "a.md" }

/-- An event kind the interpreter does not recognize. -/
def evOther : ParsedEvent := { event := some "heartbeat" }

/-- Witness for C6, at the concrete running job `jobRun`: the `init` event
sets `total` to 3, `file_fail` bumps both counters, an unknown kind and an
unparsable line leave progress untouched, and counters never decrease over
a concrete line sequence. -/
theorem C6_event_folding_witness :
    (stdoutUpdate jobRun "e1" (some evInit)).progress =
      { total := 3, completed := 0, failed := 0, currentFile := none } ∧
    (stdoutUpdate jobRun "e2" (some evFail)).progress =
      { total := 0, completed := 1, failed := 1,
        currentFile := some "a.md" } ∧
    (stdoutUpdate jobRun "e3" (some evOther)).progress = jobRun.progress ∧
    (stdoutUpdate jobRun "not json" none).progress = jobRun.progress ∧
    (stdoutUpdate jobRun "not json" none).outputLines = ["not json"] ∧
    jobRun.progress.completed ≤
      (foldStdoutLines jobRun
        [("e1", some evInit), ("x", none), ("e2", some evFail)]
        ).progress.completed := by
  refine ⟨?_, ?_, ?_, ?_, ?_, ?_⟩
  · simpa using C6_event_folding.1 jobRun "e1" evInit 3 rfl rfl
  · simpa using C6_event_folding.2.2.2.1 jobRun "e2" evFail rfl
  · exact C6_event_folding.2.2.2.2.2.1 jobRun "e3" evOther "heartbeat" rfl
      (by decide) (by decide) (by decide) (by decide)
  · exact (C6_event_folding.2.2.2.2.2.2.2.1 jobRun "not json").1
  · simpa using (C6_event_folding.2.2.2.2.2.2.2.1 jobRun "not json").2
  · exact (C6_event_folding.2.2.2.2.2.2.2.2 jobRun
      [("e1", some evInit), ("x", none), ("e2", some evFail)]).1

/-! ## C7: the bounded output buffer -/

/-- `jobRun` with a full 200-line buffer. -/
def job200 : TranslationJob :=
  { jobRun with outputLines := List.replicate 200 "line" }

/-- A state holding `job200` with its process still live. -/
def st200 : ManagerState := { jobs := [job200], procs := ["translate-0"] }

theorem pushCapped_replicate (x : String) (k : Nat) (hk : k ≤ 200) :
    pushCapped (List.replicate k x) x =
      List.replicate (min (k + 1) 200) x := by
  simp only [pushCapped]
  rw [← List.replicate_succ']
  by_cases hk2 : k = 200
  · subst hk2
    rw [if_pos (by simp only [List.length_replicate]; omega)]
    rw [show min (200 + 1) 200 = 200 by omega]
    rw [List.replicate_succ]
    rfl
  · rw [if_neg (by simp only [List.length_replicate]; omega)]
    rw [min_eq_left (by omega)]

theorem foldStdout_replicate (x : String) :
    ∀ (n k : Nat) (j : TranslationJob), k ≤ 200 →
      j.outputLines = List.replicate k x →
      (foldStdoutLines j (List.replicate n (x, none))).outputLines =
        List.replicate (min (k + n) 200) x := by
  intro n
  induction n with
  | zero =>
    intro k j hk hj
    rw [show min (k + 0) 200 = k by omega]
    simpa [foldStdoutLines] using hj
  | succ n ih =>
    intro k j hk hj
    rw [List.replicate_succ]
    show (foldStdoutLines (stdoutUpdate j x none)
      (List.replicate n (x, none))).outputLines = _
    have hbuf : (stdoutUpdate j x none).outputLines =
        List.replicate (min (k + 1) 200) x := by
      show pushCapped j.outputLines x = _
      rw [hj]
      exact pushCapped_replicate x k hk
    rw [ih (min (k + 1) 200) (stdoutUpdate j x none) (min_le_right _ _) hbuf]
    congr 1
    omega

theorem foldStdoutLines_id (ls : List (String × Option ParsedEvent)) :
    ∀ j : TranslationJob, (foldStdoutLines j ls).id = j.id := by
  induction ls with
  | nil => intro j; rfl
  | cons a tl ih => intro j; exact (ih (stdoutUpdate j a.1 a.2)).trans rfl

/-- The state after `jobRun` has received 250 stdout lines `x` (none of
    them parseable). -/
def st250 : ManagerState :=
  { jobs := [foldStdoutLines jobRun (List.replicate 250 ("x", none))]
    procs := ["translate-0"] }

/-- **C7 (code bug).** The stream handlers keep the buffer at 200 lines by
dropping the oldest line — after 250 stdout lines, `getJobOutput(id, 0)`
returns exactly the most recent 200 — but the process `error` handler
pushes its `[error] ` line without the cap check: a job whose buffer
already holds 200 lines ends up with 201 buffered lines, violating the
claimed bound. -/
theorem C7_error_line_overflows_buffer :
    ((onError st200 "translate-0" "boom" 1).jobs.map
      (fun j => j.outputLines.length)) = [201] ∧
    getJobOutput st250 "translate-0" 0 = List.replicate 200 "x" := by
  constructor
  · have hjobs : (onError st200 "translate-0" "boom" 1).jobs =
        [errorUpdate job200 "boom" 1] := by
      show mapJob [job200] "translate-0" (fun j => errorUpdate j "boom" 1) = _
      unfold mapJob
      rw [List.map_cons, List.map_nil,
        if_pos (show job200.id = "translate-0" from rfl)]
    rw [hjobs]
    simp only [List.map_cons, List.map_nil]
    rw [show (errorUpdate job200 "boom" 1).outputLines =
        List.replicate 200 "line" ++ ["[error] boom"] from rfl]
    rw [List.length_append, List.length_replicate]
    rfl
  · have hid : (foldStdoutLines jobRun
        (List.replicate 250 ("x", none))).id = "translate-0" :=
      foldStdoutLines_id _ jobRun
    have hfind : getJob st250 "translate-0" =
        some (foldStdoutLines jobRun (List.replicate 250 ("x", none))) := by
      show List.find? _ st250.jobs = _
      rw [show st250.jobs =
        [foldStdoutLines jobRun (List.replicate 250 ("x", none))] from rfl]
      rw [List.find?_cons_of_pos _
        (by simp only [decide_eq_true_eq]; exact hid)]
    have hbuf := foldStdout_replicate "x" 250 0 jobRun (by omega)
      (by simp [jobRun])
    simp only [getJobOutput, hfind, List.drop_zero]
    rw [hbuf]
    rw [show (0 + 250) ⊓ 200 = 200 by omega]

/-! ## C8: offset-based output reads -/

/-- **C8.** `getJobOutput(id, offset)` returns the suffix of the job's
buffer starting at `offset`, and the empty sequence for an unknown id;
tailing with the offset advanced by the previously returned count yields
every buffered line exactly once in order (for a buffer that has only
grown by appends, which is how it evolves while under its cap, as the last
conjunct states). -/
theorem C8_output_tailing :
    (∀ (s : ManagerState) (id : String) (offset : Nat),
      getJob s id = none → getJobOutput s id offset = []) ∧
    (∀ (s : ManagerState) (id : String) (j : TranslationJob) (offset : Nat),
      getJob s id = some j →
      getJobOutput s id offset = j.outputLines.drop offset) ∧
    (∀ (s1 s2 : ManagerState) (id : String) (j1 j2 : TranslationJob)
        (rest : List String),
      getJob s1 id = some j1 → getJob s2 id = some j2 →
      j2.outputLines = j1.outputLines ++ rest →
      getJobOutput s1 id 0 ++ getJobOutput s2 id j1.outputLines.length =
        j2.outputLines) ∧
    (∀ (lines : List String) (line : String),
      lines.length < 200 → pushCapped lines line = lines ++ [line]) := by
  refine ⟨?_, ?_, ?_, ?_⟩
  · intro s id offset h
    simp [getJobOutput, h]
  · intro s id j offset h
    simp [getJobOutput, h]
  · intro s1 s2 id j1 j2 rest h1 h2 hpre
    simp only [getJobOutput, h1, h2, List.drop_zero]
    rw [hpre, List.drop_left]
  · intro lines line h
    simp only [pushCapped]
    rw [if_neg (by simp; omega)]

/-- A job holding two buffered lines. -/
def jobOut1 : TranslationJob := { jobRun with outputLines := ["a", "b"] }

/-- The same job after two further lines arrived. -/
def jobOut2 : TranslationJob :=
  { jobRun with outputLines := ["a", "b", "c", "d"] }

/-- State holding `jobOut1`. -/
def stOut1 : ManagerState := { jobs := [jobOut1], procs := ["translate-0"] }

/-- State holding `jobOut2`. -/
def stOut2 : ManagerState := { jobs := [jobOut2], procs := ["translate-0"] }

/-- Witness for C8: reading an unknown id, reading at an offset, a
two-round incremental tail, and an under-cap append. -/
theorem C8_output_tailing_witness :
    getJobOutput stOut1 "translate-99" 0 = [] ∧
    getJobOutput stOut2 "translate-0" 2 = ["c", "d"] ∧
    getJobOutput stOut1 "translate-0" 0 ++
      getJobOutput stOut2 "translate-0" 2 = ["a", "b", "c", "d"] ∧
    pushCapped ["a"] "b" = ["a", "b"] := by
  refine ⟨?_, ?_, ?_, ?_⟩
  · exact C8_output_tailing.1 stOut1 "translate-99" 0 (by decide)
  · simpa using C8_output_tailing.2.1 stOut2 "translate-0" jobOut2 2 rfl
  · simpa using C8_output_tailing.2.2.1 stOut1 stOut2 "translate-0" jobOut1
      jobOut2 ["c", "d"] rfl rfl rfl
  · simpa using C8_output_tailing.2.2.2 ["a"] "b" (by decide)

/-! ## C9: worker command-line defaulting -/

/-- **C9.** The worker command line is built with most-specific-wins
defaulting: a present (non-empty, for the `||`-chained string options)
per-request value beats the component default, which beats the hardcoded
fallback (`"haiku"` model, parallelism 1, 2 retries, 3-second delay); a
`preserveCode` explicitly set to `false` (in the request or the config)
emits the explicit `--no-preserve-code` disable flag, which is otherwise
omitted; the other optional flags are appended exactly when the
corresponding option is present (non-empty / positive / `true`). -/
theorem C9_arg_defaulting (cfg : JobManagerConfig) (opts : StartJobOptions) :
    (∀ m : String, opts.model = some m → m ≠ "" → modelArg cfg opts = m) ∧
    (∀ d : String, (opts.model = none ∨ opts.model = some "") →
      cfg.defaultModel = some d → d ≠ "" → modelArg cfg opts = d) ∧
    ((opts.model = none ∨ opts.model = some "") →
      (cfg.defaultModel = none ∨ cfg.defaultModel = some "") →
      modelArg cfg opts = "haiku") ∧
    (∀ n : Int, opts.parallel = some n → parallelArg cfg opts = n) ∧
    (∀ n : Int, opts.parallel = none → cfg.defaultParallel = some n →
      parallelArg cfg opts = n) ∧
    (opts.parallel = none → cfg.defaultParallel = none →
      parallelArg cfg opts = 1) ∧
    (∀ n : Int, opts.retries = some n → retriesArg cfg opts = n) ∧
    (opts.retries = none → cfg.defaultRetries = none →
      retriesArg cfg opts = 2) ∧
    (∀ n : Int, opts.delay = some n → delayArg cfg opts = n) ∧
    (opts.delay = none → cfg.defaultDelay = none → delayArg cfg opts = 3) ∧
    (preserveCodeArgs cfg opts = ["--no-preserve-code"] ↔
      (opts.preserveCode = some false ∨ cfg.preserveCode = some false)) ∧
    (opts.sourceLang = none → sourceLangArgs opts = []) ∧
    (∀ sl : String, opts.sourceLang = some sl → sl ≠ "" →
      sourceLangArgs opts = ["--source-lang", sl]) ∧
    (opts.maxFiles = none → maxFilesArgs opts = []) ∧
    (∀ n : Int, opts.maxFiles = some n → 0 < n →
      maxFilesArgs opts = ["--max-files", toString n]) ∧
    (∀ n : Int, opts.maxFiles = some n → n ≤ 0 → maxFilesArgs opts = []) ∧
    (retryFailedArgs opts = ["--retry-failed"] ↔
      opts.retryFailed = some true) ∧
    (dryRunArgs opts = ["--dry-run"] ↔ opts.dryRun = some true) ∧
    buildArgs cfg opts = baseArgs cfg opts ++ sourceLangArgs opts ++
      maxFilesArgs opts ++ filePatternArgs opts ++ glossaryArgs opts ++
      trimSuffixArgs opts ++ addSuffixArgs opts ++ preserveCodeArgs cfg opts ++
      retryFailedArgs opts ++ dryRunArgs opts := by
  refine ⟨?_, ?_, ?_, ?_, ?_, ?_, ?_, ?_, ?_, ?_, ?_, ?_, ?_, ?_, ?_, ?_,
    ?_, ?_, rfl⟩
  · intro m hm hne
    simp [modelArg, jsOr, hm, hne]
  · intro d hopt hd hne
    rcases hopt with h | h <;> simp [modelArg, jsOr, h, hd, hne]
  · intro hopt hdef
    rcases hopt with h | h <;> rcases hdef with h2 | h2 <;>
      simp [modelArg, jsOr, h, h2]
  · intro n hn
    simp [parallelArg, hn]
  · intro n hn hd
    simp [parallelArg, hn, hd]
  · intro hn hd
    simp [parallelArg, hn, hd]
  · intro n hn
    simp [retriesArg, hn]
  · intro hn hd
    simp [retriesArg, hn, hd]
  · intro n hn
    simp [delayArg, hn]
  · intro hn hd
    simp [delayArg, hn, hd]
  · constructor
    · intro h
      by_contra hc
      push_neg at hc
      rw [preserveCodeArgs, if_neg (by tauto)] at h
      exact List.noConfusion h
    · intro h
      rw [preserveCodeArgs, if_pos h]
  · intro h
    simp [sourceLangArgs, h]
  · intro sl hsl hne
    simp [sourceLangArgs, hsl, hne]
  · intro h
    simp [maxFilesArgs, h]
  · intro n hn hpos
    simp [maxFilesArgs, hn]
    exact ⟨by omega, hpos⟩
  · intro n hn hle
    rw [maxFilesArgs, hn]
    simp only []
    rw [if_neg (by omega)]
  · constructor
    · intro h
      by_contra hc
      rw [retryFailedArgs, if_neg hc] at h
      exact List.noConfusion h
    · intro h
      rw [retryFailedArgs, if_pos h]
  · constructor
    · intro h
      by_contra hc
      rw [dryRunArgs, if_neg hc] at h
      exact List.noConfusion h
    · intro h
      rw [dryRunArgs, if_pos h]

/-- Request options exercising the explicit-value branch of C9. -/
def optsExplicit : StartJobOptions :=
  { source := "/docs-en", target := "/docs-tw", model := some "opus",
    parallel := some 4, retries := some 7, delay := some 0,
    sourceLang := some "en", maxFiles := some 5,
    preserveCode := some false, retryFailed := some true,
    dryRun := some true }

/-- A config whose defaults the explicit request values must beat. -/
def cfgDefaults : JobManagerConfig :=
  { scriptPath := "/opt/translate.py", maxConcurrent := 2,
    defaultModel := some "sonnet", defaultParallel := some 2 }

/-- Request options with every optional field absent. -/
def optsBare : StartJobOptions := { source := "/docs-en", target := "/docs-tw" }

/-- A config with no component-level defaults. -/
def cfgBare : JobManagerConfig :=
  { scriptPath := "/opt/translate.py", maxConcurrent := 2 }

/-- Witness for C9: explicit values beat the config defaults (model
`"opus"` over `"sonnet"`, parallelism 4 over 2, an explicit 0 delay wins
under `??`); with everything absent the hardcoded fallbacks apply and the
optional flags are omitted; `preserveCode = false` emits the disable
flag. -/
theorem C9_arg_defaulting_witness :
    modelArg cfgDefaults optsExplicit = "opus" ∧
    parallelArg cfgDefaults optsExplicit = 4 ∧
    retriesArg cfgDefaults optsExplicit = 7 ∧
    delayArg cfgDefaults optsExplicit = 0 ∧
    sourceLangArgs optsExplicit = ["--source-lang", "en"] ∧
    maxFilesArgs optsExplicit = ["--max-files", "5"] ∧
    preserveCodeArgs cfgDefaults optsExplicit = ["--no-preserve-code"] ∧
    retryFailedArgs optsExplicit = ["--retry-failed"] ∧
    dryRunArgs optsExplicit = ["--dry-run"] ∧
    modelArg cfgDefaults optsBare = "sonnet" ∧
    parallelArg cfgDefaults optsBare = 2 ∧
    modelArg cfgBare optsBare = "haiku" ∧
    parallelArg cfgBare optsBare = 1 ∧
    retriesArg cfgBare optsBare = 2 ∧
    delayArg cfgBare optsBare = 3 ∧
    sourceLangArgs optsBare = [] ∧
    maxFilesArgs optsBare = [] := by
  refine ⟨?_, ?_, ?_, ?_, ?_, ?_, ?_, ?_, ?_, ?_, ?_, ?_, ?_, ?_, ?_, ?_, ?_⟩
  · exact (C9_arg_defaulting cfgDefaults optsExplicit).1 "opus" rfl
      (by decide)
  · exact (C9_arg_defaulting cfgDefaults optsExplicit).2.2.2.1 4 rfl
  · exact (C9_arg_defaulting cfgDefaults optsExplicit).2.2.2.2.2.2.1 7 rfl
  · exact (C9_arg_defaulting cfgDefaults optsExplicit).2.2.2.2.2.2.2.2.1 0 rfl
  · exact (C9_arg_defaulting cfgDefaults
      optsExplicit).2.2.2.2.2.2.2.2.2.2.2.2.1 "en" rfl (by decide)
  · exact (C9_arg_defaulting cfgDefaults
      optsExplicit).2.2.2.2.2.2.2.2.2.2.2.2.2.2.1 5 rfl (by decide)
  · exact ((C9_arg_defaulting cfgDefaults
      optsExplicit).2.2.2.2.2.2.2.2.2.2.1).2 (Or.inl rfl)
  · exact ((C9_arg_defaulting cfgDefaults
      optsExplicit).2.2.2.2.2.2.2.2.2.2.2.2.2.2.2.2.1).2 rfl
  · exact ((C9_arg_defaulting cfgDefaults
      optsExplicit).2.2.2.2.2.2.2.2.2.2.2.2.2.2.2.2.2.1).2 rfl
  · exact (C9_arg_defaulting cfgDefaults optsBare).2.1 "sonnet" (Or.inl rfl)
      rfl (by decide)
  · exact (C9_arg_defaulting cfgDefaults optsBare).2.2.2.2.1 2 rfl rfl
  · exact (C9_arg_defaulting cfgBare optsBare).2.2.1 (Or.inl rfl) (Or.inl rfl)
  · exact (C9_arg_defaulting cfgBare optsBare).2.2.2.2.2.1 rfl rfl
  · exact (C9_arg_defaulting cfgBare optsBare).2.2.2.2.2.2.2.1 rfl rfl
  · exact (C9_arg_defaulting cfgBare optsBare).2.2.2.2.2.2.2.2.2.1 rfl rfl
  · exact (C9_arg_defaulting cfgBare
      optsBare).2.2.2.2.2.2.2.2.2.2.2.1 rfl
  · exact (C9_arg_defaulting cfgBare
      optsBare).2.2.2.2.2.2.2.2.2.2.2.2.2.1 rfl

/-! ## C10: initial job state and registration -/

theorem find?_replace_self (job : TranslationJob) :
    ∀ jobs : List TranslationJob,
      jobs.any (fun j => decide (j.id = job.id)) = true →
      (jobs.map (fun j => if j.id = job.id then job else j)).find?
        (fun x => decide (x.id = job.id)) = some job := by
  intro jobs
  induction jobs with
  | nil => intro h; simp at h
  | cons a l ih =>
    intro h
    by_cases ha : a.id = job.id
    · rw [List.map_cons, if_pos ha]
      rw [List.find?_cons_of_pos _ (by simp)]
    · rw [List.map_cons, if_neg ha]
      rw [List.find?_cons_of_neg _ (by simpa using ha)]
      apply ih
      simpa [ha] using h

theorem find?_append_self (job : TranslationJob) :
    ∀ jobs : List TranslationJob,
      (∀ j ∈ jobs, ¬ j.id = job.id) →
      (jobs ++ [job]).find? (fun x => decide (x.id = job.id)) = some job := by
  intro jobs
  induction jobs with
  | nil =>
    intro _
    rw [List.nil_append, List.find?_cons_of_pos _ (by simp)]
  | cons a l ih =>
    intro h
    rw [List.cons_append,
      List.find?_cons_of_neg _ (by simpa using h a (by simp))]
    exact ih (fun j hj => h j (by simp [hj]))

theorem find?_setJob (jobs : List TranslationJob) (job : TranslationJob) :
    (setJob jobs job).find? (fun x => decide (x.id = job.id)) = some job := by
  unfold setJob
  split
  · next hany => exact find?_replace_self job jobs (by simpa using hany)
  · next hany =>
    refine find?_append_self job jobs ?_
    intro j hj heq
    exact hany (List.any_eq_true.2 ⟨j, hj, by simp [heq]⟩)

/-- **C10.** Every successful `startJob` call returns a job that starts
life with status `running`, progress `total = completed = failed = 0` and
no `currentFile`, no `completedAt`, an empty output buffer, the requested
source/target, `startedAt` equal to the creation time — and it is
registered, so `getJob` on the returned job's id yields that same
record. -/
theorem C10_initial_job_state (cfg : JobManagerConfig) (s : ManagerState)
    (opts : StartJobOptions) (now : Int) (pid : Option Int)
    (job : TranslationJob) (s' : ManagerState)
    (h : startJob cfg s opts now pid = Except.ok (job, s')) :
    job.status = JobStatus.running ∧
    job.progress =
      { total := 0, completed := 0, failed := 0, currentFile := none } ∧
    job.completedAt = none ∧
    job.outputLines = [] ∧
    job.source = opts.source ∧
    job.target = opts.target ∧
    job.startedAt = now ∧
    getJob s' job.id = some job := by
  obtain ⟨hjob, hs', _, _⟩ := startJob_ok_state h
  subst hjob
  subst hs'
  exact ⟨rfl, rfl, rfl, rfl, rfl, rfl, rfl,
    find?_setJob s.jobs (startedJob opts now pid)⟩

/-- Witness for C10: starting a job in the empty manager yields exactly
`jobRun` registered under its id. -/
theorem C10_initial_job_state_witness :
    startJob cfgOne initState optsA 0 (some 42) =
      Except.ok (jobRun, stRun) ∧
    jobRun.status = JobStatus.running ∧
    jobRun.progress =
      { total := 0, completed := 0, failed := 0, currentFile := none } ∧
    jobRun.completedAt = none ∧
    jobRun.outputLines = [] ∧
    getJob stRun jobRun.id = some jobRun := by
  have h : startJob cfgOne initState optsA 0 (some 42) =
      Except.ok (jobRun, stRun) := by rfl
  obtain ⟨h1, h2, h3, h4, _, _, _, h8⟩ :=
    C10_initial_job_state cfgOne initState optsA 0 (some 42) jobRun stRun h
  exact ⟨h, h1, h2, h3, h4, h8⟩
